import Mathlib

/-!
Verification of the smartstack/haproxy backend-discovery and replication-checking
logic of the paasta repository, together with the Istio-mesh Kubernetes service
reconciliation loop.

The repository ships only the test module `tests/test_smartstack_tools.py` for the
smartstack core; the module `paasta_tools/smartstack_tools.py` itself is absent, so
the definitions in the first part of this file are modelled from the specification
(sections 3, 4.1 and 4.4-4.6 of the design document), faithful to its words.
The second part embeds the per-namespace service creation loop of
`paasta_tools/setup_istio_mesh.py`, which is present in the sources.
-/

namespace PaastaSpec

/-- Value of a decimal digit character, `none` for anything else. -/
def digitVal (c : Char) : Option Nat :=
  if '0' ≤ c ∧ c ≤ '9' then some (c.toNat - '0'.toNat) else none

/-- Accumulating decimal parser over a character list; fails on any non-digit. -/
def parseNatAux : List Char → Nat → Option Nat
  | [], acc => some acc
  | c :: cs, acc =>
    match digitVal c with
    | some d => parseNatAux cs (acc * 10 + d)
    | none => none

/-- Decimal parser: a non-empty, all-digit character list denotes a natural number. -/
def parseNat (cs : List Char) : Option Nat :=
  match cs with
  | [] => none
  | _ => parseNatAux cs 0

/-- Character for one decimal digit. -/
def digitChar (d : Nat) : Char := Char.ofNat (48 + d)

/-- Decimal rendering of a natural number, most significant digit first. -/
def natToDigits (n : Nat) : List Char :=
  if _h : n < 10 then [digitChar n]
  else natToDigits (n / 10) ++ [digitChar (n % 10)]
termination_by n
decreasing_by exact Nat.div_lt_self (by omega) (by omega)

/-- Split a character list at the last occurrence of `c`; `none` when `c` is absent. -/
def splitLast (c : Char) : List Char → Option (List Char × List Char)
  | [] => none
  | x :: xs =>
    match splitLast c xs with
    | some (l, r) => some (x :: l, r)
    | none => if x = c then some ([], xs) else none

/-- Decoded form of an svname: ip, port and hostname (spec section 3, ParsedIdentity). -/
structure ParsedIdentity where
  ip : String
  port : Nat
  hostname : String
deriving DecidableEq, Repr

/-- Modelled from the spec: `ip_port_hostname_from_svname` of the missing module
`paasta_tools/smartstack_tools.py` (spec section 4.1, SvnameCodec). The token is
split on its last underscore into `left` and `right`; when `left` contains a colon
it is the `ip:port` segment and `right` the hostname (legacy format), otherwise
`left` is the hostname and `right` the `ip:port` segment (current format). The
`ip:port` segment is split on its last colon; decoding fails when no split exists
or the port segment is not a valid 16-bit integer. -/
def ip_port_hostname_from_svname (svname : String) : Option ParsedIdentity :=
  match splitLast '_' svname.data with
  | none => none
  | some (left, right) =>
    if ':' ∈ left then
      match splitLast ':' left with
      | none => none
      | some (ipc, portc) =>
        match parseNat portc with
        | none => none
        | some p => if p < 65536 then some ⟨String.mk ipc, p, String.mk right⟩ else none
    else
      match splitLast ':' right with
      | none => none
      | some (ipc, portc) =>
        match parseNat portc with
        | none => none
        | some p => if p < 65536 then some ⟨String.mk ipc, p, String.mk left⟩ else none

/-- One row of a fetched load-balancer stats snapshot (spec section 3, BackendRecord). -/
structure BackendRecord where
  pxname : String
  svname : String
  status : String
deriving DecidableEq, Repr

/-- Whether a status string begins with the token `UP`. -/
def startsWithUP (s : String) : Bool :=
  match s.data with
  | c1 :: c2 :: _ => decide (c1 = 'U') && decide (c2 = 'P')
  | _ => false

/-- Modelled from the spec: `backend_is_up` of the missing module
`paasta_tools/smartstack_tools.py` (spec section 3): a BackendRecord is healthy iff
its `status` begins with the token `UP`. -/
def backend_is_up (b : BackendRecord) : Bool :=
  startsWithUP b.status

/-- Scheduler task descriptor: DNS host name and listening ports (spec section 3). -/
structure TaskDescriptor where
  host : String
  ports : List Nat
deriving DecidableEq, Repr

/-- Modelled from the spec: step 2 of the matching algorithm (spec section 4.4) of
the missing module `paasta_tools/smartstack_tools.py` builds, from the tasks whose
host resolves, one `(ip, port) ↦ task` entry per `(task, port)` combination. -/
def taskEntries (resolve : String → Option String) :
    List TaskDescriptor → List ((String × Nat) × TaskDescriptor)
  | [] => []
  | t :: rest =>
    (match resolve t.host with
     | some ip => t.ports.map (fun p => ((ip, p), t))
     | none => []) ++ taskEntries resolve rest

/-- Modelled from the spec: the working map keeps one entry per `(ip, port)` key;
on key collisions across tasks the documented last-write-wins policy applies
(spec sections 4.4 step 2 and 9). -/
def dedupKeysKeepLast : List ((String × Nat) × TaskDescriptor) →
    List ((String × Nat) × TaskDescriptor)
  | [] => []
  | e :: rest =>
    if rest.any (fun e2 => decide (e2.1 = e.1)) then dedupKeysKeepLast rest
    else e :: dedupKeysKeepLast rest

/-- Look up the first entry with the given key and remove it, returning the bound
task and the remaining map (the 1:1 consumption step of spec section 4.4). -/
def lookupRemove (k : String × Nat) :
    List ((String × Nat) × TaskDescriptor) →
    Option (TaskDescriptor × List ((String × Nat) × TaskDescriptor))
  | [] => none
  | e :: rest =>
    if e.1 = k then some (e.2, rest)
    else
      match lookupRemove k rest with
      | some (t, rest2) => some (t, e :: rest2)
      | none => none

/-- Modelled from the spec: steps 3 and 4 of the matching algorithm (spec section
4.4). Each backend is decoded; a decode failure yields an unmatched backend; a
decoded backend consumes the map entry at its `(ip, port)` when present. Returns
the emitted pairs together with the remaining working map. -/
def processBackends : List BackendRecord → List ((String × Nat) × TaskDescriptor) →
    List (Option BackendRecord × Option TaskDescriptor) ×
      List ((String × Nat) × TaskDescriptor)
  | [], m => ([], m)
  | b :: rest, m =>
    match ip_port_hostname_from_svname b.svname with
    | none =>
      ((some b, (none : Option TaskDescriptor)) :: (processBackends rest m).1,
        (processBackends rest m).2)
    | some pid =>
      match lookupRemove (pid.ip, pid.port) m with
      | some (t, m2) =>
        ((some b, some t) :: (processBackends rest m2).1, (processBackends rest m2).2)
      | none =>
        ((some b, (none : Option TaskDescriptor)) :: (processBackends rest m).1,
          (processBackends rest m).2)

/-- Modelled from the spec: `match_backends_and_tasks` of the missing module
`paasta_tools/smartstack_tools.py` (spec section 4.4). After the backend pass,
remaining map entries surface as unmatched tasks (step 5), and tasks whose host
failed DNS resolution also surface as unmatched tasks (step 1: resolution failure
is not fatal, the task is never eligible to match and surfaces as an unmatched
task). -/
def match_backends_and_tasks (resolve : String → Option String)
    (backends : List BackendRecord) (tasks : List TaskDescriptor) :
    List (Option BackendRecord × Option TaskDescriptor) :=
  (processBackends backends (dedupKeysKeepLast (taskEntries resolve tasks))).1
    ++ ((processBackends backends (dedupKeysKeepLast (taskEntries resolve tasks))).2).map
        (fun e => (none, some e.2))
    ++ (tasks.filter (fun t => (resolve t.host).isNone)).map
        (fun t => ((none : Option BackendRecord), some t))

/-- Whether a matcher pair carries the given task matched to a healthy backend. -/
def healthy_pair_for (t : TaskDescriptor) :
    Option BackendRecord × Option TaskDescriptor → Bool
  | (some b, some t2) => if t2 = t then backend_is_up b else false
  | _ => false

/-- Modelled from the spec: `get_registered_marathon_tasks` of the missing module
`paasta_tools/smartstack_tools.py` (spec section 4.5, `registered_tasks`): only
tasks whose paired backend is healthy are kept; tasks with no backend pairing, or
paired with an unhealthy backend, are excluded; the relative order of surviving
tasks follows the input task order. -/
def get_registered_marathon_tasks (resolve : String → Option String)
    (backends : List BackendRecord) (tasks : List TaskDescriptor) :
    List TaskDescriptor :=
  tasks.filter
    (fun t => (match_backends_and_tasks resolve backends tasks).any (healthy_pair_for t))

/-- Modelled from the spec: `count_up` (the counting core of
`get_replication_for_services` in the missing module
`paasta_tools/smartstack_tools.py`, spec section 4.5): each requested
service-instance key maps to the number of records whose proxy name equals it and
whose status is healthy; keys with no matching healthy record appear with 0. -/
def count_up (records : List BackendRecord) (service_instances : List String) :
    List (String × Nat) :=
  service_instances.map
    (fun s => (s, (records.filter
      (fun r => decide (r.pxname = s) && backend_is_up r)).length))

/-- Whether a backend's decoded identity is exactly the given `(ip, port)`. -/
def backend_matches_ip_port (host_ip : String) (host_port : Nat)
    (b : BackendRecord) : Bool :=
  match ip_port_hostname_from_svname b.svname with
  | some pid => decide (pid.ip = host_ip) && decide (pid.port = host_port)
  | none => false

/-- Modelled from the spec: `are_services_up_on_ip_port` of the missing module
`paasta_tools/smartstack_tools.py`; the spec's section 8 omits this routine, so
its behavior is reconstructed from `test_are_services_up_on_port` in
`tests/test_smartstack_tools.py`: the fetched backends are filtered to those whose
decoded identity is the given `(host_ip, host_port)`; the result is true iff that
set is non-empty, covers every requested service's proxy name, and is entirely
healthy. -/
def are_services_up_on_ip_port (backends : List BackendRecord)
    (services : List String) (host_ip : String) (host_port : Nat) : Bool :=
  !(backends.filter (backend_matches_ip_port host_ip host_port)).isEmpty
    && services.all (fun s =>
        (backends.filter (backend_matches_ip_port host_ip host_port)).any
          (fun b => decide (b.pxname = s)))
    && (backends.filter (backend_matches_ip_port host_ip host_port)).all backend_is_up

/-- Host inventory entry: hostname and attribute mapping (spec sections 3 and 6). -/
structure HostInfo where
  hostname : String
  attributes : List (String × String)
deriving DecidableEq, Repr

/-- Value of one attribute of a host. -/
def getAttr (h : HostInfo) (a : String) : Option String :=
  h.attributes.lookup a

/-- Modelled from the spec: a host passes the blacklist when no blacklisted
attribute pair occurs among its attributes (spec section 4.6 step 1). -/
def host_passes_blacklist (h : HostInfo) (bl : List (String × String)) : Bool :=
  bl.all (fun e => decide (¬ getAttr h e.1 = some e.2))

/-- Modelled from the spec: step 1 of the replication checker (spec section 4.6):
keep the hosts whose pool attribute equals the instance's configured pool and whose
attribute set is not blacklisted. -/
def filter_hosts (hosts : List HostInfo) (pool : String)
    (bl : List (String × String)) : List HostInfo :=
  hosts.filter
    (fun h => decide (getAttr h "pool" = some pool) && host_passes_blacklist h bl)

/-- Representative selection with an accumulator of already-seen group values:
the first host carrying each fresh value of the discovery attribute is kept. -/
def representativesAux (discover : String) (seen : List String) :
    List HostInfo → List (String × HostInfo)
  | [] => []
  | h :: rest =>
    match getAttr h discover with
    | none => representativesAux discover seen rest
    | some v =>
      if v ∈ seen then representativesAux discover seen rest
      else (v, h) :: representativesAux discover (v :: seen) rest

/-- Modelled from the spec: step 2 of the replication checker (spec section 4.6):
group the surviving hosts by the discovery attribute's value and select exactly one
representative host per group, the first in a stable enumeration order. -/
def representatives (discover : String) (hosts : List HostInfo) :
    List (String × HostInfo) :=
  representativesAux discover [] hosts

/-- Modelled from the spec: `check` of the SmartstackReplicationChecker (spec
section 4.6) over an injected per-host stats snapshot: for each group's
representative host, fetch and parse its records and run `count_up` for the
requested keys; groups whose representative is unreachable contribute no entry. -/
def check (stats : String → Option (List BackendRecord)) (keys : List String)
    (hosts : List HostInfo) (bl : List (String × String))
    (discover : String) (pool : String) : List (String × List (String × Nat)) :=
  (representatives discover (filter_hosts hosts pool bl)).filterMap
    (fun gv =>
      match stats gv.2.hostname with
      | none => none
      | some records => some (gv.1, count_up records keys))

/-- Replace every dot by two dashes, the character-level core of
`sanitise_kubernetes_service_name` in `paasta_tools/setup_istio_mesh.py`. -/
def replaceDots : List Char → List Char
  | [] => []
  | c :: rest =>
    if c = '.' then '-' :: '-' :: replaceDots rest else c :: replaceDots rest

/-- Embedding of `sanitise_kubernetes_service_name` of
`paasta_tools/setup_istio_mesh.py`: the helper `sanitise_kubernetes_name` it calls
lives in the absent module `paasta_tools/kubernetes_tools.py`, so it is abstracted
as the function `base`; afterwards every `.` is replaced by `--`. -/
def sanitise_kubernetes_service_name (base : String → String) (name : String) :
    String :=
  String.mk (replaceDots (base name).data)

/-- Embedding of the per-namespace creation loop of `setup_kube_services` in
`paasta_tools/setup_istio_mesh.py` (lines 172-203): for each namespace, stop when a
positive rate limit has been reached by earlier creations, skip namespaces whose
sanitized service name already exists, and otherwise create the service and count
it against the rate limit. Returns the names of the created services. -/
def setup_kube_services_loop (base : String → String) (existing : List String)
    (rate_limit : Int) : List String → Nat → List String
  | [], _ => []
  | ns :: rest, api_updates =>
    if 0 < rate_limit ∧ (api_updates : Int) ≥ rate_limit then []
    else if sanitise_kubernetes_service_name base ns ∈ existing then
      setup_kube_services_loop base existing rate_limit rest api_updates
    else
      sanitise_kubernetes_service_name base ns ::
        setup_kube_services_loop base existing rate_limit rest (api_updates + 1)

/-- Name of the unified routing service in `paasta_tools/setup_istio_mesh.py`. -/
def UNIFIED_K8S_SVC_NAME : String := "paasta-routing"

/-- Embedding of `setup_kube_services` of `paasta_tools/setup_istio_mesh.py`:
whether the unified service is created (only when its name is absent from the
existing set), and the list of per-namespace services created by the loop starting
with zero api updates. -/
def setup_kube_services (base : String → String) (existing : List String)
    (namespaces : List String) (rate_limit : Int) : Bool × List String :=
  (!(existing.contains UNIFIED_K8S_SVC_NAME),
    setup_kube_services_loop base existing rate_limit namespaces 0)

/-! ### Concrete fixtures from the repository's tests -/

/-- Resolver of the box4..box8 scenario of `test_match_backends_and_tasks`. -/
def box_resolve : String → Option String := fun hst =>
  if hst = "box4" then some "10.50.2.4"
  else if hst = "box5" then some "10.50.2.5"
  else if hst = "box6" then some "10.50.2.6"
  else if hst = "box7" then some "10.50.2.7"
  else if hst = "box8" then some "10.50.2.8"
  else none

/-- Backends of the box4..box8 scenario of `test_match_backends_and_tasks`. -/
def box_backends : List BackendRecord :=
  [⟨"servicename.main", "10.50.2.4:31000_box4", "UP"⟩,
   ⟨"servicename.main", "10.50.2.5:31001_box5", "UP"⟩,
   ⟨"servicename.main", "10.50.2.6:31001_box6", "UP"⟩,
   ⟨"servicename.main", "10.50.2.6:31002_box7", "UP"⟩,
   ⟨"servicename.main", "10.50.2.8:31000_box8", "UP"⟩]

/-- Tasks of the box4..box8 scenario of `test_match_backends_and_tasks`. -/
def box_tasks : List TaskDescriptor :=
  [⟨"box4", [31000]⟩, ⟨"box5", [31001]⟩, ⟨"box7", [31000]⟩]

/-- Resolver that fails on `box7` only, for the resolution-failure scenario. -/
def c7_resolve : String → Option String := fun hst =>
  if hst = "box7" then none else some "10.0.0.1"

/-- First host of the grouping scenario of `test_get_replication_for_instance`. -/
def host1 : HostInfo := ⟨"host1", [("region", "fake_region1"), ("pool", "default")]⟩

/-- Second host of the grouping scenario of `test_get_replication_for_instance`. -/
def host2 : HostInfo := ⟨"host2", [("region", "fake_region1"), ("pool", "cool_pool")]⟩

/-- Healthy record for `fake_service.fake_instance`. -/
def record20 : BackendRecord := ⟨"fake_service.fake_instance", "sv", "UP"⟩

/-- Stats snapshot answering only for `host2`, with twenty healthy records. -/
def fakeStats : String → Option (List BackendRecord) := fun hst =>
  if hst = "host2" then some (List.replicate 20 record20) else none

/-! ### Helper lemmas: strings, digits and `splitLast` -/

theorem string_mk_data (s : String) : String.mk s.data = s := rfl

theorem string_data_mk (l : List Char) : (String.mk l).data = l := rfl

theorem string_data_append (a b : String) : (a ++ b).data = a.data ++ b.data := rfl

theorem splitLast_not_mem (c : Char) : ∀ l : List Char, c ∉ l → splitLast c l = none
  | [], _ => rfl
  | x :: xs, h => by
    have hx : ¬ x = c := fun e => h (e ▸ List.mem_cons_self x xs)
    have hxs : c ∉ xs := fun e => h (List.mem_cons_of_mem _ e)
    simp [splitLast, splitLast_not_mem c xs hxs, hx]

theorem splitLast_append (c : Char) (r : List Char) (hr : c ∉ r) :
    ∀ l : List Char, splitLast c (l ++ c :: r) = some (l, r)
  | [] => by simp [splitLast, splitLast_not_mem c r hr]
  | x :: l => by simp [splitLast, splitLast_append c r hr l]

theorem digit_facts {d : Nat} (hd : d < 10) :
    digitVal (digitChar d) = some d ∧ digitChar d ≠ '_' ∧ digitChar d ≠ ':' := by
  interval_cases d <;> exact ⟨by decide, by decide, by decide⟩

theorem natToDigits_ne_nil (n : Nat) : natToDigits n ≠ [] := by
  rw [natToDigits]
  split <;> simp

theorem natToDigits_mem : ∀ n c, c ∈ natToDigits n → ∃ d, d < 10 ∧ c = digitChar d := by
  intro n
  induction n using Nat.strong_induction_on with
  | _ n ih =>
    intro c hc
    rw [natToDigits] at hc
    split at hc
    · next h => exact ⟨n, h, by simpa using hc⟩
    · next h =>
      rcases List.mem_append.mp hc with h1 | h2
      · exact ih (n / 10) (Nat.div_lt_self (by omega) (by omega)) c h1
      · exact ⟨n % 10, Nat.mod_lt _ (by omega), by simpa using h2⟩

theorem natToDigits_no_sep (n : Nat) : ∀ c ∈ natToDigits n, c ≠ '_' ∧ c ≠ ':' := by
  intro c hc
  obtain ⟨d, hd, rfl⟩ := natToDigits_mem n c hc
  obtain ⟨-, h1, h2⟩ := digit_facts hd
  exact ⟨h1, h2⟩

theorem parseNatAux_append : ∀ (l1 l2 : List Char) (a : Nat),
    parseNatAux (l1 ++ l2) a =
      match parseNatAux l1 a with
      | none => none
      | some b => parseNatAux l2 b
  | [], _, _ => rfl
  | c :: cs, l2, a => by
    cases h : digitVal c with
    | none => simp [parseNatAux, h]
    | some d => simp [parseNatAux, h, parseNatAux_append cs l2 (a * 10 + d)]

theorem parseNatAux_natToDigits : ∀ n a : Nat, ∃ m, 0 < m ∧
    parseNatAux (natToDigits n) a = some (a * m + n) := by
  intro n
  induction n using Nat.strong_induction_on with
  | _ n ih =>
    intro a
    rw [natToDigits]
    split
    · next h =>
      obtain ⟨hv, -, -⟩ := digit_facts h
      exact ⟨10, by omega, by simp [parseNatAux, hv]⟩
    · next h =>
      obtain ⟨m', hm', hp⟩ := ih (n / 10) (Nat.div_lt_self (by omega) (by omega)) a
      refine ⟨m' * 10, by omega, ?_⟩
      rw [parseNatAux_append, hp]
      have hmod : n % 10 < 10 := Nat.mod_lt _ (by omega)
      obtain ⟨hv, -, -⟩ := digit_facts hmod
      simp only [parseNatAux, hv]
      refine congrArg some ?_
      calc (a * m' + n / 10) * 10 + n % 10
          = a * (m' * 10) + (10 * (n / 10) + n % 10) := by ring
        _ = a * (m' * 10) + n := by rw [Nat.div_add_mod]

theorem parseNat_natToDigits (n : Nat) : parseNat (natToDigits n) = some n := by
  obtain ⟨m, hm, hp⟩ := parseNatAux_natToDigits n 0
  cases hD : natToDigits n with
  | nil => exact absurd hD (natToDigits_ne_nil n)
  | cons d ds =>
    rw [hD] at hp
    simp [parseNat, hp]

theorem startsWithUP_iff (s : String) :
    startsWithUP s = true ↔ ∃ rest, s.data = 'U' :: 'P' :: rest := by
  unfold startsWithUP
  cases hs : s.data with
  | nil => simp
  | cons c1 t =>
    cases t with
    | nil => simp
    | cons c2 rest =>
      simp only [Bool.and_eq_true, decide_eq_true_eq]
      constructor
      · rintro ⟨rfl, rfl⟩
        exact ⟨rest, rfl⟩
      · rintro ⟨r, hr⟩
        injection hr with h1 h2
        injection h2 with h2 h3
        exact ⟨h1, h2⟩

/-! ### Helper lemmas: the working map and the matching pass -/

theorem lookupRemove_mem {k : String × Nat} :
    ∀ {m t m2}, lookupRemove k m = some (t, m2) → (k, t) ∈ m := by
  intro m
  induction m with
  | nil => intro t m2 h; simp [lookupRemove] at h
  | cons e rest ih =>
    intro t m2 h
    rw [lookupRemove] at h
    split at h
    · next he =>
      simp only [Option.some.injEq, Prod.mk.injEq] at h
      obtain ⟨rfl, rfl⟩ := h
      have he2 : e = (k, e.2) := Prod.ext he rfl
      rw [← he2]
      exact List.mem_cons_self e rest
    · next he =>
      split at h
      · next t0 rest2 hrec =>
        simp only [Option.some.injEq, Prod.mk.injEq] at h
        obtain ⟨rfl, rfl⟩ := h
        exact List.mem_cons_of_mem _ (ih hrec)
      · next => exact absurd h (by simp)

theorem lookupRemove_sub {k : String × Nat} :
    ∀ {m t m2}, lookupRemove k m = some (t, m2) → ∀ x ∈ m2, x ∈ m := by
  intro m
  induction m with
  | nil => intro t m2 h; simp [lookupRemove] at h
  | cons e rest ih =>
    intro t m2 h
    rw [lookupRemove] at h
    split at h
    · next he =>
      simp only [Option.some.injEq, Prod.mk.injEq] at h
      obtain ⟨rfl, rfl⟩ := h
      exact fun x hx => List.mem_cons_of_mem _ hx
    · next he =>
      split at h
      · next t0 rest2 hrec =>
        simp only [Option.some.injEq, Prod.mk.injEq] at h
        obtain ⟨rfl, rfl⟩ := h
        intro x hx
        rcases List.mem_cons.mp hx with rfl | hx
        · exact List.mem_cons_self _ _
        · exact List.mem_cons_of_mem _ (ih hrec x hx)
      · next => exact absurd h (by simp)

theorem lookupRemove_perm {k : String × Nat} :
    ∀ {m t m2}, lookupRemove k m = some (t, m2) →
      (m.map Prod.snd).Perm (t :: m2.map Prod.snd) := by
  intro m
  induction m with
  | nil => intro t m2 h; simp [lookupRemove] at h
  | cons e rest ih =>
    intro t m2 h
    rw [lookupRemove] at h
    split at h
    · next he =>
      simp only [Option.some.injEq, Prod.mk.injEq] at h
      obtain ⟨rfl, rfl⟩ := h
      exact List.Perm.refl _
    · next he =>
      split at h
      · next t0 rest2 hrec =>
        simp only [Option.some.injEq, Prod.mk.injEq] at h
        obtain ⟨rfl, rfl⟩ := h
        have h2 : List.Perm (e.2 :: rest.map Prod.snd) (e.2 :: t0 :: rest2.map Prod.snd) :=
          (ih hrec).cons e.2
        have h3 : List.Perm (e.2 :: t0 :: rest2.map Prod.snd)
            (t0 :: e.2 :: rest2.map Prod.snd) :=
          List.Perm.swap t0 e.2 _
        exact h2.trans h3
      · next => exact absurd h (by simp)

theorem dedup_sub : ∀ l, ∀ x ∈ dedupKeysKeepLast l, x ∈ l := by
  intro l
  induction l with
  | nil => intro x hx; exact hx
  | cons e rest ih =>
    intro x hx
    rw [dedupKeysKeepLast] at hx
    split at hx
    · exact List.mem_cons_of_mem _ (ih x hx)
    · rcases List.mem_cons.mp hx with rfl | hx
      · exact List.mem_cons_self _ _
      · exact List.mem_cons_of_mem _ (ih x hx)

theorem dedup_eq_of_nodup : ∀ l : List ((String × Nat) × TaskDescriptor),
    (l.map Prod.fst).Nodup → dedupKeysKeepLast l = l := by
  intro l
  induction l with
  | nil => intro _; rfl
  | cons e rest ih =>
    intro hnd
    rw [List.map_cons, List.nodup_cons] at hnd
    obtain ⟨hne, hnd⟩ := hnd
    have hfalse : rest.any (fun e2 => decide (e2.1 = e.1)) = false := by
      rw [List.any_eq_false]
      intro e2 he2
      simp only [decide_eq_true_eq]
      intro heq
      exact hne (heq ▸ List.mem_map_of_mem Prod.fst he2)
    simp [dedupKeysKeepLast, hfalse, ih hnd]

theorem taskEntries_mem (resolve : String → Option String) :
    ∀ ts k t, (k, t) ∈ taskEntries resolve ts →
      t ∈ ts ∧ resolve t.host = some k.1 ∧ k.2 ∈ t.ports := by
  intro ts
  induction ts with
  | nil => intro k t h; simp [taskEntries] at h
  | cons t0 rest ih =>
    intro k t h
    rw [taskEntries] at h
    rcases List.mem_append.mp h with h1 | h2
    · cases hr : resolve t0.host with
      | none => rw [hr] at h1; simp at h1
      | some ip =>
        rw [hr] at h1
        obtain ⟨p, hp, heq⟩ := List.mem_map.mp h1
        simp only [Prod.mk.injEq] at heq
        obtain ⟨rfl, rfl⟩ := heq
        exact ⟨List.mem_cons_self _ _, hr, hp⟩
    · obtain ⟨h1, h2z, h3⟩ := ih k t h2
      exact ⟨List.mem_cons_of_mem _ h1, h2z, h3⟩

theorem taskEntries_append (resolve : String → Option String) :
    ∀ l1 l2, taskEntries resolve (l1 ++ l2)
      = taskEntries resolve l1 ++ taskEntries resolve l2 := by
  intro l1 l2
  induction l1 with
  | nil => rfl
  | cons t rest ih => simp [taskEntries, ih, List.append_assoc]

theorem taskEntries_snd (resolve : String → Option String) :
    ∀ ts, (∀ t ∈ ts, t.ports.length = 1) →
      (taskEntries resolve ts).map Prod.snd
        = ts.filter (fun t => (resolve t.host).isSome) := by
  intro ts
  induction ts with
  | nil => intro _; rfl
  | cons t rest ih =>
    intro hall
    have ht : t.ports.length = 1 := hall t (List.mem_cons_self _ _)
    have hrest := fun x hx => hall x (List.mem_cons_of_mem _ hx)
    rw [taskEntries, List.map_append, ih hrest]
    cases hr : resolve t.host with
    | none => simp [List.filter_cons, hr]
    | some ip =>
      obtain ⟨p, hp⟩ := List.length_eq_one.mp ht
      simp [List.filter_cons, hr, hp]

theorem processBackends_fst : ∀ (bs : List BackendRecord) m,
    ((processBackends bs m).1).filterMap Prod.fst = bs := by
  intro bs
  induction bs with
  | nil => intro m; rfl
  | cons b rest ih =>
    intro m
    rw [processBackends]
    split
    · simp [List.filterMap_cons, ih m]
    · split
      · next t m2 heq => simp [List.filterMap_cons, ih m2]
      · simp [List.filterMap_cons, ih m]

theorem processBackends_pairs_fst : ∀ (bs : List BackendRecord) m p,
    p ∈ (processBackends bs m).1 → ∃ b, p.1 = some b := by
  intro bs
  induction bs with
  | nil => intro m p h; simp [processBackends] at h
  | cons b rest ih =>
    intro m p h
    rw [processBackends] at h
    split at h
    · rcases List.mem_cons.mp h with rfl | h
      · exact ⟨b, rfl⟩
      · exact ih m p h
    · split at h
      · next t m2 heq =>
        rcases List.mem_cons.mp h with rfl | h
        · exact ⟨b, rfl⟩
        · exact ih m2 p h
      · rcases List.mem_cons.mp h with rfl | h
        · exact ⟨b, rfl⟩
        · exact ih m p h

theorem processBackends_matched : ∀ (bs : List BackendRecord) m b t,
    (some b, some t) ∈ (processBackends bs m).1 →
      ∃ pid, ip_port_hostname_from_svname b.svname = some pid
        ∧ ((pid.ip, pid.port), t) ∈ m := by
  intro bs
  induction bs with
  | nil => intro m b t h; simp [processBackends] at h
  | cons b0 rest ih =>
    intro m b t h
    rw [processBackends] at h
    split at h
    · next hd =>
      rcases List.mem_cons.mp h with heq | h
      · simp at heq
      · exact ih m b t h
    · next pid hd =>
      split at h
      · next t0 m2 hlr =>
        rcases List.mem_cons.mp h with heq | h
        · simp only [Prod.mk.injEq, Option.some.injEq] at heq
          obtain ⟨rfl, rfl⟩ := heq
          exact ⟨pid, hd, lookupRemove_mem hlr⟩
        · obtain ⟨pid2, hd2, hm⟩ := ih m2 b t h
          exact ⟨pid2, hd2, lookupRemove_sub hlr _ hm⟩
      · next hlr =>
        rcases List.mem_cons.mp h with heq | h
        · simp at heq
        · exact ih m b t h

theorem processBackends_snd_perm : ∀ (bs : List BackendRecord) m,
    List.Perm
      ((processBackends bs m).1.filterMap Prod.snd
        ++ (processBackends bs m).2.map Prod.snd)
      (m.map Prod.snd) := by
  intro bs
  induction bs with
  | nil => intro m; simp [processBackends]
  | cons b rest ih =>
    intro m
    rw [processBackends]
    split
    · simpa [List.filterMap_cons] using ih m
    · split
      · next t m2 hlr =>
        have hperm := lookupRemove_perm hlr
        simp only [List.filterMap_cons, List.cons_append]
        exact ((ih m2).cons t).trans hperm.symm
      · simpa [List.filterMap_cons] using ih m

theorem processBackends_leftover_sub : ∀ (bs : List BackendRecord) m x,
    x ∈ (processBackends bs m).2 → x ∈ m := by
  intro bs
  induction bs with
  | nil => intro m x h; exact h
  | cons b rest ih =>
    intro m x h
    rw [processBackends] at h
    split at h
    · exact ih m x h
    · split at h
      · next t m2 hlr => exact lookupRemove_sub hlr x (ih m2 x h)
      · exact ih m x h

theorem filterMap_fst_leftover (lo : List ((String × Nat) × TaskDescriptor)) :
    (lo.map (fun e => ((none : Option BackendRecord), some e.2))).filterMap Prod.fst
      = [] := by
  induction lo with
  | nil => rfl
  | cons a rest ih => simp [List.filterMap_cons, ih]

theorem filterMap_snd_leftover (lo : List ((String × Nat) × TaskDescriptor)) :
    (lo.map (fun e => ((none : Option BackendRecord), some e.2))).filterMap Prod.snd
      = lo.map Prod.snd := by
  induction lo with
  | nil => rfl
  | cons a rest ih => simp [List.filterMap_cons, ih]

theorem filterMap_fst_unres (ts : List TaskDescriptor) :
    (ts.map (fun t => ((none : Option BackendRecord), some t))).filterMap Prod.fst
      = [] := by
  induction ts with
  | nil => rfl
  | cons a rest ih => simp [List.filterMap_cons, ih]

theorem filterMap_snd_unres (ts : List TaskDescriptor) :
    (ts.map (fun t => ((none : Option BackendRecord), some t))).filterMap Prod.snd
      = ts := by
  induction ts with
  | nil => rfl
  | cons a rest ih => simp [List.filterMap_cons, ih]

theorem healthy_pair_for_iff (t : TaskDescriptor)
    (p : Option BackendRecord × Option TaskDescriptor) :
    healthy_pair_for t p = true ↔
      ∃ b, p = (some b, some t) ∧ backend_is_up b = true := by
  obtain ⟨o1, o2⟩ := p
  cases o1 with
  | none => simp [healthy_pair_for]
  | some b =>
    cases o2 with
    | none => simp [healthy_pair_for]
    | some t2 =>
      by_cases ht : t2 = t
      · subst ht
        simp [healthy_pair_for]
      · simp [healthy_pair_for, ht]

/-! ### Helper lemmas: representative selection and the creation loop -/

theorem repAux_mem (discover : String) :
    ∀ (l : List HostInfo) (seen : List String) gv,
      gv ∈ representativesAux discover seen l →
        gv.2 ∈ l ∧ getAttr gv.2 discover = some gv.1 ∧ gv.1 ∉ seen := by
  intro l
  induction l with
  | nil => intro seen gv h; simp [representativesAux] at h
  | cons h0 rest ih =>
    intro seen gv h
    rw [representativesAux] at h
    split at h
    · obtain ⟨h1, h2, h3⟩ := ih seen gv h
      exact ⟨List.mem_cons_of_mem _ h1, h2, h3⟩
    · next v hattr =>
      split at h
      · obtain ⟨h1, h2, h3⟩ := ih seen gv h
        exact ⟨List.mem_cons_of_mem _ h1, h2, h3⟩
      · next hv =>
        rcases List.mem_cons.mp h with rfl | h
        · exact ⟨List.mem_cons_self _ _, hattr, hv⟩
        · obtain ⟨h1, h2, h3⟩ := ih (v :: seen) gv h
          exact ⟨List.mem_cons_of_mem _ h1, h2,
            fun hs => h3 (List.mem_cons_of_mem _ hs)⟩

theorem repAux_nodup (discover : String) :
    ∀ (l : List HostInfo) (seen : List String),
      ((representativesAux discover seen l).map Prod.fst).Nodup := by
  intro l
  induction l with
  | nil => intro seen; simp [representativesAux]
  | cons h0 rest ih =>
    intro seen
    rw [representativesAux]
    split
    · exact ih seen
    · next v hattr =>
      split
      · exact ih seen
      · next hv =>
        rw [List.map_cons, List.nodup_cons]
        refine ⟨?_, ih (v :: seen)⟩
        intro hmem
        obtain ⟨gv, hgv, heq⟩ := List.mem_map.mp hmem
        obtain ⟨-, -, h3⟩ := repAux_mem discover rest (v :: seen) gv hgv
        apply h3
        rw [heq]
        exact List.mem_cons_self v seen

theorem repAux_complete (discover : String) :
    ∀ (l : List HostInfo) (seen : List String) (h : HostInfo) (v : String),
      h ∈ l → getAttr h discover = some v →
        v ∈ seen ∨ v ∈ (representativesAux discover seen l).map Prod.fst := by
  intro l
  induction l with
  | nil => intro seen h v hmem; exact absurd hmem (List.not_mem_nil h)
  | cons h0 rest ih =>
    intro seen h v hmem hattr
    rcases List.mem_cons.mp hmem with rfl | hmem
    · rw [representativesAux, hattr]
      dsimp only
      by_cases hv : v ∈ seen
      · exact Or.inl hv
      · right
        rw [if_neg hv, List.map_cons]
        exact List.mem_cons_self v _
    · rw [representativesAux]
      cases hattr0 : getAttr h0 discover with
      | none => exact ih seen h v hmem hattr
      | some v0 =>
        dsimp only
        by_cases hv0 : v0 ∈ seen
        · rw [if_pos hv0]
          exact ih seen h v hmem hattr
        · rw [if_neg hv0]
          rcases ih (v0 :: seen) h v hmem hattr with hseen | hmap
          · rcases List.mem_cons.mp hseen with rfl | hseen
            · right
              rw [List.map_cons]
              exact List.mem_cons_self _ _
            · exact Or.inl hseen
          · right
            rw [List.map_cons]
            exact List.mem_cons_of_mem _ hmap

theorem loop_mem (base : String → String) (existing : List String) (rl : Int) :
    ∀ (l : List String) (n : Nat) (s : String),
      s ∈ setup_kube_services_loop base existing rl l n →
        s ∉ existing ∧ ∃ ns ∈ l, s = sanitise_kubernetes_service_name base ns := by
  intro l
  induction l with
  | nil => intro n s h; simp [setup_kube_services_loop] at h
  | cons ns rest ih =>
    intro n s h
    rw [setup_kube_services_loop] at h
    split at h
    · simp at h
    · split at h
      · obtain ⟨h1, ns2, h2, h3⟩ := ih n s h
        exact ⟨h1, ns2, List.mem_cons_of_mem _ h2, h3⟩
      · next hex =>
        rcases List.mem_cons.mp h with rfl | h
        · exact ⟨hex, ns, List.mem_cons_self _ _, rfl⟩
        · obtain ⟨h1, ns2, h2, h3⟩ := ih (n + 1) s h
          exact ⟨h1, ns2, List.mem_cons_of_mem _ h2, h3⟩

theorem loop_break (base : String → String) (existing : List String) (rl : Int)
    (l : List String) (n : Nat) (hpos : 0 < rl) (hge : (n : Int) ≥ rl) :
    setup_kube_services_loop base existing rl l n = [] := by
  cases l with
  | nil => rfl
  | cons ns rest => rw [setup_kube_services_loop, if_pos ⟨hpos, hge⟩]

theorem loop_length (base : String → String) (existing : List String) (rl : Int) :
    ∀ (l : List String) (n : Nat), 0 < rl → (n : Int) < rl →
      ((setup_kube_services_loop base existing rl l n).length : Int) + n ≤ rl := by
  intro l
  induction l with
  | nil =>
    intro n hpos hlt
    simp [setup_kube_services_loop]
    omega
  | cons ns rest ih =>
    intro n hpos hlt
    rw [setup_kube_services_loop, if_neg (by omega)]
    split
    · exact ih n hpos hlt
    · by_cases hnext : ((n + 1 : Nat) : Int) < rl
      · have hrec := ih (n + 1) hpos hnext
        rw [List.length_cons]
        push_cast at hrec ⊢
        omega
      · have hge : ((n + 1 : Nat) : Int) ≥ rl := by omega
        rw [loop_break base existing rl rest (n + 1) hpos hge]
        simp
        omega

/-! ### Claim theorems -/

/-- C2 (amended): for every hostname `h` containing neither underscore nor colon,
every IP string `i` containing no underscore, and every 16-bit port `p`, decoding
the current-format svname `"{h}_{i}:{p}"` and the legacy-format svname
`"{i}:{p}_{h}"` both yield the parsed identity `(ip = i, port = p, hostname = h)`;
the format is disambiguated by splitting on the last underscore and testing whether
the left part contains a colon. -/
theorem claim_C2_codec (h i : String) (p : Nat) (hp : p < 65536)
    (hu : '_' ∉ h.data) (hc : ':' ∉ h.data) (hi : '_' ∉ i.data) :
    ip_port_hostname_from_svname (h ++ "_" ++ i ++ ":" ++ String.mk (natToDigits p))
      = some ⟨i, p, h⟩
    ∧ ip_port_hostname_from_svname (i ++ ":" ++ String.mk (natToDigits p) ++ "_" ++ h)
      = some ⟨i, p, h⟩ := by
  have hnu : '_' ∉ i.data ++ ':' :: natToDigits p := by
    intro hmem
    rcases List.mem_append.mp hmem with hm | hm
    · exact hi hm
    · rcases List.mem_cons.mp hm with e | hm
      · exact absurd e (by decide)
      · exact (natToDigits_no_sep p _ hm).1 rfl
  have hnc : ':' ∉ natToDigits p := fun hm => (natToDigits_no_sep p _ hm).2 rfl
  constructor
  · have hD : (h ++ "_" ++ i ++ ":" ++ String.mk (natToDigits p)).data
        = h.data ++ '_' :: (i.data ++ ':' :: natToDigits p) := by
      simp [string_data_append, string_data_mk]
    unfold ip_port_hostname_from_svname
    rw [hD, splitLast_append '_' _ hnu h.data]
    dsimp only
    rw [if_neg hc, splitLast_append ':' _ hnc i.data]
    dsimp only
    rw [parseNat_natToDigits]
    dsimp only
    rw [if_pos hp, string_mk_data, string_mk_data]
  · have hD : (i ++ ":" ++ String.mk (natToDigits p) ++ "_" ++ h).data
        = (i.data ++ ':' :: natToDigits p) ++ '_' :: h.data := by
      simp [string_data_append, string_data_mk]
    unfold ip_port_hostname_from_svname
    rw [hD, splitLast_append '_' _ hu (i.data ++ ':' :: natToDigits p)]
    dsimp only
    rw [if_pos (List.mem_append.mpr (Or.inr (List.mem_cons_self _ _))),
      splitLast_append ':' _ hnc i.data]
    dsimp only
    rw [parseNat_natToDigits]
    dsimp only
    rw [if_pos hp, string_mk_data, string_mk_data]

/-- C2 witness: instantiating the codec theorem at the concrete hostname `myhost`,
ip `10.40.10.155` and port `31219` used by the repository's tests. -/
theorem claim_C2_codec_witness :
    (31219 < 65536 ∧ '_' ∉ ("myhost" : String).data ∧ ':' ∉ ("myhost" : String).data
      ∧ '_' ∉ ("10.40.10.155" : String).data)
    ∧ (ip_port_hostname_from_svname
        ("myhost" ++ "_" ++ "10.40.10.155" ++ ":" ++ String.mk (natToDigits 31219))
          = some ⟨"10.40.10.155", 31219, "myhost"⟩
      ∧ ip_port_hostname_from_svname
        ("10.40.10.155" ++ ":" ++ String.mk (natToDigits 31219) ++ "_" ++ "myhost")
          = some ⟨"10.40.10.155", 31219, "myhost"⟩) :=
  ⟨⟨by decide, by decide, by decide, by decide⟩,
    claim_C2_codec "myhost" "10.40.10.155" 31219 (by decide) (by decide) (by decide)
      (by decide)⟩

/-- C2 counterexample: for the hostname `a_b` (which contains an underscore), the
ip `4` and the port `5`, the legacy-format svname `"{i}:{p}_{h}"` is `4:5_a_b`; the
last underscore lies inside the hostname, the left part `4:5_a` contains a colon
and its port segment `5_a` is not numeric, so decoding fails instead of yielding
`(ip = 4, port = 5, hostname = a_b)` — refuting the claim's unrestricted
quantification over hostnames. -/
theorem claim_C2_codec_cx :
    ip_port_hostname_from_svname "4:5_a_b" = none
    ∧ ip_port_hostname_from_svname "4:5_a_b" ≠ some ⟨"4", 5, "a_b"⟩ :=
  ⟨by decide, by decide⟩

/-- C3: a backend record is healthy exactly when its status string begins with the
token `UP`; in particular `UP` and `UP 1/2` are healthy while `DOWN`, `DOWN 1/2`
and `MAINT` are not. The predicate is a total Boolean function on records. -/
theorem claim_C3_backend_is_up :
    (∀ b : BackendRecord,
      backend_is_up b = true ↔ ∃ rest, b.status.data = 'U' :: 'P' :: rest)
    ∧ backend_is_up ⟨"s.main", "sv", "UP"⟩ = true
    ∧ backend_is_up ⟨"s.main", "sv", "UP 1/2"⟩ = true
    ∧ backend_is_up ⟨"s.main", "sv", "DOWN"⟩ = false
    ∧ backend_is_up ⟨"s.main", "sv", "DOWN 1/2"⟩ = false
    ∧ backend_is_up ⟨"s.main", "sv", "MAINT"⟩ = false :=
  ⟨fun b => startsWithUP_iff b.status, by decide, by decide, by decide, by decide,
    by decide⟩

/-- C1 (amended): for every backend list and every task list in which each task has
exactly one port and the `(ip, port)` entries built from the resolvable tasks have
pairwise-distinct keys, the matcher's output pairs carry every element of the
backend list exactly once on the left, every element of the task list exactly once
on the right (as a permutation), no pair has both sides absent, and a pair with
both sides present only occurs when the backend's decoded `(ip, port)` equals the
task's resolved `(ip, port)`. -/
theorem claim_C1_matcher (resolve : String → Option String)
    (backends : List BackendRecord) (tasks : List TaskDescriptor)
    (hports : ∀ t ∈ tasks, t.ports.length = 1)
    (hkeys : ((taskEntries resolve tasks).map Prod.fst).Nodup) :
    (match_backends_and_tasks resolve backends tasks).filterMap Prod.fst = backends
    ∧ List.Perm ((match_backends_and_tasks resolve backends tasks).filterMap Prod.snd)
        tasks
    ∧ (∀ p ∈ match_backends_and_tasks resolve backends tasks,
        ¬ (p.1 = none ∧ p.2 = none))
    ∧ (∀ b t, (some b, some t) ∈ match_backends_and_tasks resolve backends tasks →
        ∃ pid, ip_port_hostname_from_svname b.svname = some pid
          ∧ resolve t.host = some pid.ip ∧ pid.port ∈ t.ports) := by
  have hded : dedupKeysKeepLast (taskEntries resolve tasks) = taskEntries resolve tasks :=
    dedup_eq_of_nodup _ hkeys
  refine ⟨?_, ?_, ?_, ?_⟩
  · unfold match_backends_and_tasks
    rw [List.filterMap_append, List.filterMap_append, processBackends_fst,
      filterMap_fst_leftover, filterMap_fst_unres]
    simp
  · unfold match_backends_and_tasks
    rw [List.filterMap_append, List.filterMap_append, filterMap_snd_leftover,
      filterMap_snd_unres, hded]
    have h1 := processBackends_snd_perm backends (taskEntries resolve tasks)
    rw [taskEntries_snd resolve tasks hports] at h1
    have h2 := h1.append_right (tasks.filter (fun t => (resolve t.host).isNone))
    refine h2.trans ?_
    have h3 : (fun t : TaskDescriptor => (resolve t.host).isNone)
        = (fun t => !(resolve t.host).isSome) := by
      funext x
      cases resolve x.host <;> rfl
    rw [h3]
    exact List.filter_append_perm _ tasks
  · intro p hp
    unfold match_backends_and_tasks at hp
    rcases List.mem_append.mp hp with hp | hp
    · rcases List.mem_append.mp hp with hp | hp
      · obtain ⟨b, hb⟩ := processBackends_pairs_fst backends _ p hp
        rintro ⟨h1, h2⟩
        rw [hb] at h1
        exact absurd h1 (by simp)
      · obtain ⟨e, he, heq⟩ := List.mem_map.mp hp
        rintro ⟨h1, h2⟩
        rw [← heq] at h2
        exact absurd h2 (by simp)
    · obtain ⟨e, he, heq⟩ := List.mem_map.mp hp
      rintro ⟨h1, h2⟩
      rw [← heq] at h2
      exact absurd h2 (by simp)
  · intro b t hp
    unfold match_backends_and_tasks at hp
    rcases List.mem_append.mp hp with hp | hp
    · rcases List.mem_append.mp hp with hp | hp
      · obtain ⟨pid, hd, hm⟩ := processBackends_matched backends _ b t hp
        rw [hded] at hm
        obtain ⟨-, hres, hport⟩ := taskEntries_mem resolve tasks _ t hm
        exact ⟨pid, hd, hres, hport⟩
      · obtain ⟨e, he, heq⟩ := List.mem_map.mp hp
        exact absurd (congrArg Prod.fst heq) (by simp)
    · obtain ⟨e, he, heq⟩ := List.mem_map.mp hp
      exact absurd (congrArg Prod.fst heq) (by simp)

/-- C1 witness: the matcher theorem instantiated at the box4..box8 scenario of
`test_match_backends_and_tasks`, whose tasks all have exactly one port and whose
resolved keys are pairwise distinct. -/
theorem claim_C1_matcher_witness :
    ((∀ t ∈ box_tasks, t.ports.length = 1)
      ∧ ((taskEntries box_resolve box_tasks).map Prod.fst).Nodup)
    ∧ ((match_backends_and_tasks box_resolve box_backends box_tasks).filterMap Prod.fst
        = box_backends
      ∧ List.Perm
          ((match_backends_and_tasks box_resolve box_backends box_tasks).filterMap
            Prod.snd) box_tasks
      ∧ (∀ p ∈ match_backends_and_tasks box_resolve box_backends box_tasks,
          ¬ (p.1 = none ∧ p.2 = none))
      ∧ (∀ b t,
          (some b, some t) ∈ match_backends_and_tasks box_resolve box_backends box_tasks →
          ∃ pid, ip_port_hostname_from_svname b.svname = some pid
            ∧ box_resolve t.host = some pid.ip ∧ pid.port ∈ t.ports)) :=
  ⟨⟨by decide, by decide⟩,
    claim_C1_matcher box_resolve box_backends box_tasks (by decide) (by decide)⟩

/-- C1 counterexample: a task whose host resolves but whose port list is empty
contributes no working-map entry, so the matcher's output is empty and the task
appears in no pair at all — refuting the claim that every element of the task list
appears in exactly one pair. -/
theorem claim_C1_matcher_cx :
    match_backends_and_tasks (fun _ => some "10.0.0.1") [] [⟨"h", []⟩] = []
    ∧ ¬ ((⟨"h", []⟩ : TaskDescriptor) ∈
        (match_backends_and_tasks (fun _ => some "10.0.0.1") [] [⟨"h", []⟩]).filterMap
          Prod.snd) :=
  ⟨by decide, by decide⟩

/-- C4: `count_up` maps each requested service-instance key, in order, to the
number of records whose proxy name equals that key and whose status is healthy;
every requested key is present in the result (a key with no matching healthy
record appears with count 0 by the counting formula), and counts are naturals, so
never negative. -/
theorem claim_C4_count_up (records : List BackendRecord) (keys : List String) :
    (count_up records keys).map Prod.fst = keys
    ∧ ∀ s n, (s, n) ∈ count_up records keys →
        n = (records.filter
          (fun r => decide (r.pxname = s) && backend_is_up r)).length := by
  constructor
  · unfold count_up
    induction keys with
    | nil => rfl
    | cons k rest ih => simpa using ih
  · intro s n h
    unfold count_up at h
    obtain ⟨s2, hs2, heq⟩ := List.mem_map.mp h
    simp only [Prod.mk.injEq] at heq
    obtain ⟨rfl, rfl⟩ := heq
    rfl

/-- C4 witness: on the five healthy `servicename.main` records, the requested key
`servicename.other`, absent from the snapshot, is reported with count 0 rather
than omitted. -/
theorem claim_C4_count_up_witness :
    (count_up box_backends ["servicename.main", "servicename.other"]).map Prod.fst
      = ["servicename.main", "servicename.other"]
    ∧ 0 = (box_backends.filter
        (fun r => decide (r.pxname = "servicename.other") && backend_is_up r)).length :=
  ⟨(claim_C4_count_up box_backends ["servicename.main", "servicename.other"]).1,
    (claim_C4_count_up box_backends
      ["servicename.main", "servicename.other"]).2 "servicename.other" 0 (by decide)⟩

/-- C5: the registered-tasks filter keeps exactly the tasks paired by the matcher
with a healthy backend — tasks with no backend pairing, or paired with an
unhealthy backend, are excluded — and the surviving tasks form a sublist of the
input task list, so their relative order follows the input order. -/
theorem claim_C5_registered (resolve : String → Option String)
    (backends : List BackendRecord) (tasks : List TaskDescriptor) :
    (get_registered_marathon_tasks resolve backends tasks).Sublist tasks
    ∧ ∀ t, t ∈ get_registered_marathon_tasks resolve backends tasks ↔
        t ∈ tasks ∧ ∃ b,
          (some b, some t) ∈ match_backends_and_tasks resolve backends tasks
            ∧ backend_is_up b = true := by
  constructor
  · exact List.filter_sublist _
  · intro t
    unfold get_registered_marathon_tasks
    rw [List.mem_filter]
    simp only [List.any_eq_true, healthy_pair_for_iff]
    constructor
    · rintro ⟨ht, p, hp, b, rfl, hb⟩
      exact ⟨ht, b, hp, hb⟩
    · rintro ⟨ht, b, hp, hb⟩
      exact ⟨ht, (some b, some t), hp, b, rfl, hb⟩

/-- C6: the replication checker filters hosts to those whose pool attribute equals
the configured pool and that pass the blacklist, groups the survivors by the
discovery attribute and queries exactly one representative per group (the group
values are distinct, each representative passed the filter and carries its group's
value, and every surviving host's group value is represented); in the concrete
two-host scenario, filtering by pool `cool_pool` selects `host2` as sole
representative of `fake_region1` and a count of 20 for
`fake_service.fake_instance` yields the expected one-entry report. -/
theorem claim_C6_checker :
    (∀ (hosts : List HostInfo) (bl : List (String × String)) (discover pool : String),
      ((representatives discover (filter_hosts hosts pool bl)).map Prod.fst).Nodup
      ∧ (∀ gv ∈ representatives discover (filter_hosts hosts pool bl),
          gv.2 ∈ hosts ∧ getAttr gv.2 "pool" = some pool
            ∧ host_passes_blacklist gv.2 bl = true
            ∧ getAttr gv.2 discover = some gv.1)
      ∧ ∀ h v, h ∈ filter_hosts hosts pool bl → getAttr h discover = some v →
          v ∈ (representatives discover (filter_hosts hosts pool bl)).map Prod.fst)
    ∧ representatives "region" (filter_hosts [host1, host2] "cool_pool" [])
        = [("fake_region1", host2)]
    ∧ check fakeStats ["fake_service.fake_instance"] [host1, host2] [] "region"
        "cool_pool"
        = [("fake_region1", [("fake_service.fake_instance", 20)])] := by
  refine ⟨?_, by decide, by decide⟩
  intro hosts bl discover pool
  refine ⟨repAux_nodup discover _ [], ?_, ?_⟩
  · intro gv hgv
    obtain ⟨h1, h2, -⟩ := repAux_mem discover _ [] gv hgv
    unfold filter_hosts at h1
    rw [List.mem_filter] at h1
    obtain ⟨hmem, hpred⟩ := h1
    rw [Bool.and_eq_true, decide_eq_true_eq] at hpred
    exact ⟨hmem, hpred.1, hpred.2, h2⟩
  · intro h v hh hv
    rcases repAux_complete discover _ [] h v hh hv with hseen | hmap
    · exact absurd hseen (List.not_mem_nil v)
    · exact hmap

/-- C6 witness: the per-representative guarantees instantiated at the concrete
two-host scenario, for the sole representative `("fake_region1", host2)`. -/
theorem claim_C6_checker_witness :
    (("fake_region1", host2) ∈
        representatives "region" (filter_hosts [host1, host2] "cool_pool" []))
    ∧ (host2 ∈ [host1, host2] ∧ getAttr host2 "pool" = some "cool_pool"
        ∧ host_passes_blacklist host2 [] = true
        ∧ getAttr host2 "region" = some "fake_region1") :=
  ⟨by decide,
    (claim_C6_checker.1 [host1, host2] [] "region" "cool_pool").2.1
      ("fake_region1", host2) (by decide)⟩

/-- C7: a task whose host fails DNS resolution does not make the matcher fail:
appending such a task to the task list only appends one unmatched-task pair to the
output (all other backends and tasks are matched exactly as without it, since the
task contributes nothing to the working map), and no output pair ever matches that
task with a backend. -/
theorem claim_C7_unresolvable (resolve : String → Option String)
    (backends : List BackendRecord) (tasks : List TaskDescriptor)
    (t : TaskDescriptor) (hres : resolve t.host = none) :
    match_backends_and_tasks resolve backends (tasks ++ [t])
      = match_backends_and_tasks resolve backends tasks ++ [(none, some t)]
    ∧ ∀ p ∈ match_backends_and_tasks resolve backends (tasks ++ [t]),
        p.2 = some t → p.1 = none := by
  have hTE : taskEntries resolve (tasks ++ [t]) = taskEntries resolve tasks := by
    rw [taskEntries_append]
    simp [taskEntries, hres]
  have hFil : (tasks ++ [t]).filter (fun x => (resolve x.host).isNone)
      = tasks.filter (fun x => (resolve x.host).isNone) ++ [t] := by
    rw [List.filter_append]
    simp [List.filter_cons, hres]
  constructor
  · unfold match_backends_and_tasks
    rw [hTE, hFil, List.map_append]
    simp [List.append_assoc]
  · intro p hp hpt
    unfold match_backends_and_tasks at hp
    rcases List.mem_append.mp hp with hp | hp
    · rcases List.mem_append.mp hp with hp | hp
      · obtain ⟨b, hb⟩ := processBackends_pairs_fst _ _ p hp
        exfalso
        have hpe : p = (some b, some t) := by rw [← hb, ← hpt]
        rw [hpe] at hp
        obtain ⟨pid, hd, hm⟩ := processBackends_matched _ _ b t hp
        have hm2 := dedup_sub _ _ hm
        obtain ⟨-, hres2, -⟩ := taskEntries_mem resolve _ _ t hm2
        rw [hres] at hres2
        exact absurd hres2 (by simp)
      · obtain ⟨e, he, heq⟩ := List.mem_map.mp hp
        exact (congrArg Prod.fst heq).symm
    · obtain ⟨e, he, heq⟩ := List.mem_map.mp hp
      exact (congrArg Prod.fst heq).symm

/-- C7 witness: with a resolver that fails on `box7`, the `box7` task surfaces as
one unmatched-task pair appended to the otherwise unchanged match result, and is
never paired with a backend. -/
theorem claim_C7_unresolvable_witness :
    c7_resolve (TaskDescriptor.mk "box7" [31000]).host = none
    ∧ (match_backends_and_tasks c7_resolve box_backends
          ([⟨"box4", [31000]⟩] ++ [⟨"box7", [31000]⟩])
        = match_backends_and_tasks c7_resolve box_backends [⟨"box4", [31000]⟩]
            ++ [(none, some ⟨"box7", [31000]⟩)]
      ∧ ∀ p ∈ match_backends_and_tasks c7_resolve box_backends
          ([⟨"box4", [31000]⟩] ++ [⟨"box7", [31000]⟩]),
          p.2 = some ⟨"box7", [31000]⟩ → p.1 = none) :=
  ⟨by decide,
    claim_C7_unresolvable c7_resolve box_backends [⟨"box4", [31000]⟩]
      ⟨"box7", [31000]⟩ (by decide)⟩

/-- C8: the replication check is a deterministic function of its snapshot: two
runs against per-host stats snapshots that agree on every host (and identical
hosts, keys, blacklist, discovery attribute and pool) produce identical reports. -/
theorem claim_C8_idempotent (stats1 stats2 : String → Option (List BackendRecord))
    (keys : List String) (hosts : List HostInfo) (bl : List (String × String))
    (discover pool : String) (hagree : ∀ h, stats1 h = stats2 h) :
    check stats1 keys hosts bl discover pool
      = check stats2 keys hosts bl discover pool := by
  have he : stats1 = stats2 := funext hagree
  rw [he]

/-- C8 witness: two runs of the check against the unchanged concrete snapshot of
the grouping scenario yield an identical report. -/
theorem claim_C8_idempotent_witness :
    (∀ h, fakeStats h = fakeStats h)
    ∧ check fakeStats ["fake_service.fake_instance"] [host1, host2] [] "region"
        "cool_pool"
      = check fakeStats ["fake_service.fake_instance"] [host1, host2] [] "region"
          "cool_pool" :=
  ⟨fun _ => rfl,
    claim_C8_idempotent fakeStats fakeStats ["fake_service.fake_instance"]
      [host1, host2] [] "region" "cool_pool" (fun _ => rfl)⟩

/-- C9: the port-liveness check returns true exactly when the fetched backends
whose decoded identity equals the given `(host_ip, host_port)` are non-empty,
cover every requested service's proxy name, and are all healthy; in particular it
returns false when the fetch yields no backends at all. -/
theorem claim_C9_services_up (backends : List BackendRecord) (services : List String)
    (host_ip : String) (host_port : Nat) :
    (are_services_up_on_ip_port backends services host_ip host_port = true ↔
      (backends.filter (backend_matches_ip_port host_ip host_port) ≠ []
        ∧ (∀ s ∈ services,
            ∃ b ∈ backends.filter (backend_matches_ip_port host_ip host_port),
              b.pxname = s)
        ∧ ∀ b ∈ backends.filter (backend_matches_ip_port host_ip host_port),
            backend_is_up b = true))
    ∧ are_services_up_on_ip_port [] services host_ip host_port = false := by
  constructor
  · unfold are_services_up_on_ip_port
    constructor
    · intro h
      simp only [Bool.and_eq_true, Bool.not_eq_true', List.all_eq_true,
        List.any_eq_true, decide_eq_true_eq] at h
      obtain ⟨⟨hne, hall⟩, hup⟩ := h
      refine ⟨?_, ?_, hup⟩
      · intro hnil
        rw [hnil] at hne
        exact absurd hne (by decide)
      · intro s hs
        obtain ⟨b, hb, hpx⟩ := hall s hs
        exact ⟨b, hb, hpx⟩
    · rintro ⟨hne, hall, hup⟩
      simp only [Bool.and_eq_true, Bool.not_eq_true', List.all_eq_true,
        List.any_eq_true, decide_eq_true_eq]
      refine ⟨⟨?_, ?_⟩, hup⟩
      · cases hL : backends.filter (backend_matches_ip_port host_ip host_port) with
        | nil => exact absurd hL hne
        | cons a l => rfl
      · intro s hs
        obtain ⟨b, hb, hpx⟩ := hall s hs
        exact ⟨b, hb, hpx⟩
  · rfl

/-- C10: the per-namespace creation loop of `setup_kube_services` never creates a
service whose sanitized name is already present among the existing service names
(every created name is fresh and derived from a requested namespace), and when the
rate limit is positive, at most that many services are created in one invocation. -/
theorem claim_C10_setup_kube (base : String → String) (existing : List String)
    (namespaces : List String) (rate_limit : Int) :
    (∀ s ∈ (setup_kube_services base existing namespaces rate_limit).2,
      s ∉ existing ∧ ∃ ns ∈ namespaces, s = sanitise_kubernetes_service_name base ns)
    ∧ (0 < rate_limit →
        ((setup_kube_services base existing namespaces rate_limit).2.length : Int)
          ≤ rate_limit) := by
  constructor
  · intro s hs
    exact loop_mem base existing rate_limit namespaces 0 s hs
  · intro hpos
    have hlen := loop_length base existing rate_limit namespaces 0 hpos
      (by exact_mod_cast hpos)
    simpa using hlen

/-- C10 witness: with existing service `a--b`, namespaces `a.b`, `c.d`, `e.f` and
rate limit 1, only `c--d` is created — the existing `a.b` is skipped without
consuming the limit and `e.f` is cut off by the limit. -/
theorem claim_C10_setup_kube_witness :
    ("c--d" ∉ ["a--b"]
      ∧ ∃ ns ∈ ["a.b", "c.d", "e.f"],
          "c--d" = sanitise_kubernetes_service_name (fun s => s) ns)
    ∧ (0 < (1 : Int)
      ∧ (((setup_kube_services (fun s => s) ["a--b"] ["a.b", "c.d", "e.f"] 1).2.length :
            Int) ≤ 1)) :=
  ⟨(claim_C10_setup_kube (fun s => s) ["a--b"] ["a.b", "c.d", "e.f"] 1).1 "c--d"
      (by decide),
    ⟨by decide,
      (claim_C10_setup_kube (fun s => s) ["a--b"] ["a.b", "c.d", "e.f"] 1).2
        (by decide)⟩⟩

end PaastaSpec
